import Mathlib

/-!
Verification of `isegm/engine/trainer.py` (repository CSFPN).

The development shallowly embeds the parts of the trainer that the behavioural
claims are about:

* `get_next_points` (click synthesis from false-negative / false-positive
  error regions via a distance transform);
* the `random.randint(0, max_num_next_clicks)` round sampling of
  `ISTrainer.batch_forward` / `ISFintuner.batch_forward`;
* `add_loss` of both trainer classes and the chained loss composition of
  `batch_forward`;
* `load_weights` / `_load_weights` (checkpoint merging and resolution);
* the clicks-list construction of `ISFintuner.prepare_seg_net_input`.

Modelling conventions:

* images, masks and probability maps are rectangular grids embedded as
  `List (List _)`; per-sample channel extraction `t[:, 0, :, :]` is implicit
  (a batch is a `List` of single-channel grids);
* real arithmetic is embedded as exact rational arithmetic `ℚ`;
* `cv2.distanceTransform(mask, DIST_L2, 5)` (an external library collaborator)
  is modelled by its contract: the exact Euclidean distance of each pixel to
  the nearest zero pixel.  Distances are represented by their squares (in `ℕ`);
  all the uses the trainer makes of them are order comparisons, and squaring is
  strictly monotone on nonnegative reals, so `d1 > d2` is `sq d1 > sq d2` and
  `d > m / 2` is `4 * sq d > sq m`;
* `np.random.randint(0, n)` (high bound exclusive) applied to a uniform
  ambient seed `r : ℕ` is modelled as `r % n`, and Python's
  `random.randint(0, m)` (both bounds inclusive) as `r % (m + 1)`;
* Python negative indexing (reachable in `get_next_points` only when
  `click_indx` exceeds the point-set capacity) is modelled by `pyIdx`;
  writes at indices that would raise `IndexError` in the original are
  modelled as no-ops and are excluded by the hypotheses of the theorems.
-/

namespace CSFPN

/-- A rectangular image / mask / probability-map grid. -/
abbrev Grid (α : Type) := List (List α)

/-- One stored point of the `points` tensor: `(row, col, click index)`,
all three held as floats in the original, embedded as `ℚ`. -/
abbrev Pt := ℚ × ℚ × ℚ

/-- Map over a list with the element index, starting from `i`. -/
def mapWithIdx (f : ℕ → α → β) : ℕ → List α → List β
  | _, [] => []
  | i, a :: as => f i a :: mapWithIdx f (i + 1) as

/-- Cellwise map over a grid. -/
def gridMap (f : α → β) (g : Grid α) : Grid β :=
  g.map (fun row => row.map f)

/-- Cellwise map over a grid with the cell coordinates. -/
def gridMapIdx (f : ℕ → ℕ → α → β) (g : Grid α) : Grid β :=
  mapWithIdx (fun i row => mapWithIdx (fun j a => f i j a) 0 row) 0 g

/-- Cellwise zip of two grids (numpy broadcasting on equal shapes). -/
def gridZip (f : α → β → γ) (a : Grid α) (b : Grid β) : Grid γ :=
  List.zipWith (fun ra rb => List.zipWith f ra rb) a b

/-- Cell at `(i, j)` of a grid, when present. -/
def gridCell? (g : Grid α) (i j : ℕ) : Option α :=
  g[i]?.bind (fun row => row[j]?)

/-- Binarized ground truth: `gt = gt > 0.5` in `get_next_points`. -/
def gtBin (gt : Grid ℚ) : Grid Bool :=
  gridMap (fun g => decide (g > 1 / 2)) gt

/-- False-negative mask of `get_next_points`:
`np.logical_and(gt, pred < pred_thresh)`. -/
def fnMask (thresh : ℚ) (pred gt : Grid ℚ) : Grid Bool :=
  gridZip (fun p gb => gb && decide (p < thresh)) pred (gtBin gt)

/-- False-positive mask of `get_next_points`:
`np.logical_and(np.logical_not(gt), pred > pred_thresh)`. -/
def fpMask (thresh : ℚ) (pred gt : Grid ℚ) : Grid Bool :=
  gridZip (fun p gb => !gb && decide (p > thresh)) pred (gtBin gt)

/-- Zero padding by one pixel per side:
`np.pad(mask, ((1, 1), (1, 1)), 'constant')` on one sample. -/
def pad (m : Grid Bool) : Grid Bool :=
  let w := match m with | [] => 0 | r :: _ => r.length
  [List.replicate (w + 2) false]
    ++ m.map (fun row => false :: (row ++ [false]))
    ++ [List.replicate (w + 2) false]

/-- Cropping the padding back off: the `[1:-1, 1:-1]` slice. -/
def crop (g : Grid α) : Grid α :=
  ((g.drop 1).dropLast).map (fun row => (row.drop 1).dropLast)

/-- Column indices of `false` cells of a row, first column index `j`. -/
def falseCols : ℕ → List Bool → List ℕ
  | _, [] => []
  | j, b :: bs => if b then falseCols (j + 1) bs else j :: falseCols (j + 1) bs

/-- Column indices of `true` cells of a row, first column index `j`. -/
def trueCols : ℕ → List Bool → List ℕ
  | _, [] => []
  | j, b :: bs => if b then j :: trueCols (j + 1) bs else trueCols (j + 1) bs

/-- Coordinates of the zero cells of a mask, rows starting at index `i`. -/
def zeroCellsAux : ℕ → Grid Bool → List (ℕ × ℕ)
  | _, [] => []
  | i, r :: rs => (falseCols 0 r).map (fun j => (i, j)) ++ zeroCellsAux (i + 1) rs

/-- Coordinates of the zero cells of a mask, in row-major order. -/
def zeroCells (m : Grid Bool) : List (ℕ × ℕ) :=
  zeroCellsAux 0 m

/-- Coordinates of the `true` cells of a mask in row-major order:
`np.argwhere` on a boolean array. -/
def argwhereAux : ℕ → Grid Bool → List (ℕ × ℕ)
  | _, [] => []
  | i, r :: rs => (trueCols 0 r).map (fun j => (i, j)) ++ argwhereAux (i + 1) rs

/-- Row-major coordinates of the `true` cells: `np.argwhere`. -/
def argwhere (g : Grid Bool) : List (ℕ × ℕ) :=
  argwhereAux 0 g

/-- Squared Euclidean distance between cells `(i, j)` and `(a, b)`. -/
def sqd (i j a b : ℕ) : ℕ :=
  (((i : ℤ) - a).natAbs) ^ 2 + (((j : ℤ) - b).natAbs) ^ 2

/-- Minimum of a list of naturals, `none` on the empty list. -/
def natMin? (l : List ℕ) : Option ℕ :=
  l.foldr (fun x acc => match acc with | none => some x | some y => some (min x y)) none

/-- Squared Euclidean distance transform, the contract of
`cv2.distanceTransform(mask, DIST_L2, 5)`: each nonzero pixel gets its
(squared) distance to the nearest zero pixel, zero pixels get `0`.
The `getD 0` default is unreachable on padded masks, whose border rows
always supply a zero pixel. -/
def edtSq (m : Grid Bool) : Grid ℕ :=
  gridMapIdx
    (fun i j b =>
      if b then (natMin? ((zeroCells m).map (fun c => sqd i j c.1 c.2))).getD 0
      else 0) m

/-- Maximum entry of a grid of naturals (`np.max` of a nonnegative array;
empty grids, unreachable after padding, give `0`). -/
def gridMax (g : Grid ℕ) : ℕ :=
  (g.map (fun row => row.foldr max 0)).foldr max 0

/-- Uniform pick of one coordinate from the inner region:
`indices[np.random.randint(0, len(indices))]`, with the ambient uniform seed
`r` driving the exclusive-high `randint` as `r % len`; `none` on an empty
region (the `if len(indices) > 0` guard). -/
def sampleOf (idxs : List (ℕ × ℕ)) (r : ℕ) : Option (ℕ × ℕ) :=
  if h : idxs = [] then none
  else some (idxs.get ⟨r % idxs.length, Nat.mod_lt r (List.length_pos.mpr h)⟩)

/-- Per-sample body of the loop of `get_next_points` (trainer.py lines
842-854): the two error-mask distance transforms, the winning polarity and
the sampled coordinate of the inner region.  `r` is the ambient value driving
`np.random.randint(0, len(indices))`.  Returns `none` when `indices` is empty
(no click for this sample this round). -/
def processSample (thresh : ℚ) (pred gt : Grid ℚ) (r : ℕ) : Option (Bool × ℕ × ℕ) :=
  let fn := fnMask thresh pred gt
  let fp := fpMask thresh pred gt
  let fnDt := crop (edtSq (pad fn))
  let fpDt := crop (edtSq (pad fp))
  let fnMax := gridMax fnDt
  let fpMax := gridMax fpDt
  let dt := if fnMax > fpMax then fnDt else fpDt
  let inner := gridMap (fun d => decide (4 * d > max fnMax fpMax)) dt
  let idxs := argwhere inner
  (sampleOf idxs r).map (fun c => (decide (fnMax > fpMax), c))

/-- Python / torch indexing: a negative index counts from the end. -/
def pyIdx (len : ℕ) (i : ℤ) : ℕ :=
  if i < 0 then (i + len).toNat else i.toNat

/-- Slot write of `get_next_points`: a positive click of round `k` goes to
slot `num_points - k`, a negative one to slot `2 * num_points - k`, where
`num_points = points.size(1) // 2`; the three component assignments of the
original write one `(row, col, k)` triple.  `none` (no error region) leaves
the sample unchanged. -/
def writeClick (k : ℕ) (pts : List Pt) (res : Option (Bool × ℕ × ℕ)) : List Pt :=
  match res with
  | none => pts
  | some (isPos, i, j) =>
    let n : ℕ := pts.length / 2
    let slot : ℕ :=
      if isPos then pyIdx pts.length ((n : ℤ) - k)
      else pyIdx pts.length ((2 * n : ℤ) - k)
    pts.set slot ((i : ℚ), (j : ℚ), (k : ℚ))

/-- The `get_next_points` helper (trainer.py lines 829-864).  The loop over
`range(fn_mask.shape[0])` writes into `points[bindx]`; batch indices beyond
either input batch (a shape error in the original) are modelled as no-ops.
`rng b` is the ambient randomness consumed for sample `b`. -/
def get_next_points (pred gt : List (Grid ℚ)) (points : List (List Pt)) (k : ℕ)
    (rng : ℕ → ℕ) (thresh : ℚ := 49 / 100) : List (List Pt) :=
  mapWithIdx
    (fun b sp =>
      match pred[b]?, gt[b]? with
      | some p, some g => writeClick k sp (processSample thresh p g (rng b))
      | _, _ => sp)
    0 points

/-- Modelled from the spec: per-sample next-click synthesis in the spec's own
words — binarize the ground truth at 0.5, build the false-negative mask
(gt foreground and pred < 0.49) and false-positive mask (gt background and
pred > 0.49), zero-pad both by one pixel per side, take a Euclidean distance
transform, crop the padding off, pick the polarity of the mask with the
larger maximum distance (positive exactly when the false-negative mask wins),
form the inner region of pixels whose distance exceeds half the winning
maximum, and uniformly sample one pixel of that region.  Written for
comparison with `processSample`; note that the winning maximum is here the
maximum of the winning mask, not `max fnMax fpMax`. -/
def nextClickSpec (pred gt : Grid ℚ) (r : ℕ) : Option (Bool × ℕ × ℕ) :=
  let fn := fnMask (49 / 100) pred gt
  let fp := fpMask (49 / 100) pred gt
  let fnDt := crop (edtSq (pad fn))
  let fpDt := crop (edtSq (pad fp))
  let fnMax := gridMax fnDt
  let fpMax := gridMax fpDt
  let fnWins := fnMax > fpMax
  let winMax := if fnWins then fnMax else fpMax
  let winDt := if fnWins then fnDt else fpDt
  let inner := gridMap (fun d => decide (4 * d > winMax)) winDt
  let region := argwhere inner
  (sampleOf region r).map (fun c => (decide fnWins, c))

/-- Modelled from the spec: `get_next_points` with the per-sample work done
by `nextClickSpec`, slot writes as in the PointSet invariant. -/
def specGetNextPoints (pred gt : List (Grid ℚ)) (points : List (List Pt)) (k : ℕ)
    (rng : ℕ → ℕ) : List (List Pt) :=
  mapWithIdx
    (fun b sp =>
      match pred[b]?, gt[b]? with
      | some p, some g => writeClick k sp (nextClickSpec p g (rng b))
      | _, _ => sp)
    0 points

/-- Python's `random.randint(0, m)` (both bounds inclusive), driven by a
uniform ambient seed `r`. -/
def randint (r m : ℕ) : ℕ :=
  r % (m + 1)

namespace ISTrainer

/-- Round count of `ISTrainer.batch_forward` (line 259):
`num_iters = random.randint(0, self.max_num_next_clicks)`, drawn once per
batch before the simulation loop, never per sample. -/
def numIters (r maxNextClicks : ℕ) : ℕ :=
  randint r maxNextClicks

/-- Control skeleton of `ISTrainer.batch_forward`: the `no_grad` simulation
loop body `step` runs `numIters` times on the interaction state, then the
single gradient-tracked `finalPass` consumes the accumulated state. -/
def batchForwardSim {σ τ : Type} (step : σ → σ) (finalPass : σ → τ)
    (r maxNextClicks : ℕ) (s0 : σ) : τ :=
  finalPass (step^[numIters r maxNextClicks] s0)

end ISTrainer

namespace ISFintuner

/-- Round count of `ISFintuner.batch_forward` (line 628), identical draw:
`num_iters = random.randint(0, self.max_num_next_clicks)`. -/
def numIters (r maxNextClicks : ℕ) : ℕ :=
  randint r maxNextClicks

/-- Control skeleton of `ISFintuner.batch_forward`: intention inference,
zoom, segmentation and click synthesis form the loop body `step`, run
`numIters` times, before the gradient-tracked `finalPass`. -/
def batchForwardSim {σ τ : Type} (step : σ → σ) (finalPass : σ → τ)
    (r maxNextClicks : ℕ) (s0 : σ) : τ :=
  finalPass (step^[numIters r maxNextClicks] s0)

end ISFintuner

/-- Loss configuration dictionary.  `weightOf name` models
`loss_cfg.get(name + "_weight", ...)` (the weight entry registered for the
term), `critOf name` models `loss_cfg.get(name)` (the registered criterion);
`none` is a missing dictionary key.  A criterion maps the tensors produced by
the lazy inputs thunk to its per-element loss values. -/
structure LossCfg (ι : Type) where
  weightOf : String → Option ℚ
  critOf : String → Option (ι → List ℚ)

/-- Mean reduction `torch.mean` over the elements of a loss tensor. -/
def mean (l : List ℚ) : ℚ :=
  l.sum / (l.length : ℚ)

namespace ISTrainer

/-- `ISTrainer.add_loss` (lines 313-326).  The weight is looked up with
default `0.0`; when it is not `> 0` the running total and logging dict are
returned untouched and the criterion is never looked up.  Otherwise the
criterion is fetched — calling a missing (`None`) criterion raises, modelled
as `none` — its output is optionally multiplied elementwise by
`points_loss_weight` for the `instance_loss` term, reduced by mean, logged
unweighted, and added to the total with the configured weight. -/
def add_loss (cfg : LossCfg ι) (lossName : String) (totalLoss : ℚ)
    (lossesLogging : List (String × ℚ)) (lambdaLossInputs : Unit → ι)
    (pointsLossWeight : Option (List ℚ)) : Option (ℚ × List (String × ℚ)) :=
  let lossWeight := (cfg.weightOf lossName).getD 0
  if 0 < lossWeight then
    match cfg.critOf lossName with
    | none => none
    | some crit =>
      let l0 := crit (lambdaLossInputs ())
      let l1 :=
        match pointsLossWeight with
        | some pw =>
          if lossName = "instance_loss" then List.zipWith (fun a b => a * b) l0 pw
          else l0
        | none => l0
      let m := mean l1
      some (totalLoss + lossWeight * m, lossesLogging ++ [(lossName, m)])
  else some (totalLoss, lossesLogging)

/-- The chained `add_loss` calls of `ISTrainer.batch_forward` (lines
289-299): the running total starts at `0.0`, the logging dict empty, and
`points_loss_weight` is `None` for every term (line 291). -/
def composeLosses (cfg : LossCfg ι) (terms : List (String × (Unit → ι))) :
    Option (ℚ × List (String × ℚ)) :=
  terms.foldlM (fun acc t => add_loss cfg t.1 acc.1 acc.2 t.2 none)
    ((0 : ℚ), ([] : List (String × ℚ)))

end ISTrainer

namespace ISFintuner

/-- `ISFintuner.add_loss` (lines 756-767): as `ISTrainer.add_loss` but with
no `points_loss_weight` hook. -/
def add_loss (cfg : LossCfg ι) (lossName : String) (totalLoss : ℚ)
    (lossesLogging : List (String × ℚ)) (lambdaLossInputs : Unit → ι) :
    Option (ℚ × List (String × ℚ)) :=
  let lossWeight := (cfg.weightOf lossName).getD 0
  if 0 < lossWeight then
    match cfg.critOf lossName with
    | none => none
    | some crit =>
      let m := mean (crit (lambdaLossInputs ()))
      some (totalLoss + lossWeight * m, lossesLogging ++ [(lossName, m)])
  else some (totalLoss, lossesLogging)

end ISFintuner

/-- A parameter tensor: its shape and (flattened) contents. -/
structure Tensor where
  shape : List ℕ
  data : List ℚ
deriving DecidableEq

/-- An ordered parameter-name → tensor dictionary (`state_dict`). -/
abbrev StateDict := List (String × Tensor)

/-- One Python dict assignment `d[k] = v`: replace the entry of key `k`, or
append a fresh entry when the key is absent. -/
def setKey : StateDict → String → Tensor → StateDict
  | [], k, v => [(k, v)]
  | (k0, v0) :: rest, k, v =>
    if k0 = k then (k, v) :: rest else (k0, v0) :: setKey rest k v

/-- Python `cur.update(new)`: assign every entry of `new` into `cur`. -/
def dictUpdate (cur new : StateDict) : StateDict :=
  new.foldl (fun acc kv => setKey acc kv.1 kv.2) cur

/-- The shape / key check of `model.load_state_dict` (strict mode): every key
of the loaded dict must exist in the model with the same tensor shape, and
every model key must be present. -/
def shapesMatch (model merged : StateDict) : Bool :=
  merged.all (fun kv =>
    match model.lookup kv.1 with
    | some mv => kv.2.shape == mv.shape
    | none => false)
  && model.all (fun kv => (merged.lookup kv.1).isSome)

/-- The `load_weights` helper (trainer.py lines 867-871): take the model's
live `state_dict`, merge the checkpoint's `state_dict` into it by key with
`dict.update`, then `load_state_dict` the merged dict — which fails (`none`)
when a key or shape does not match the model. -/
def load_weights (model ckpt : StateDict) : Option StateDict :=
  let merged := dictUpdate model ckpt
  if shapesMatch model merged then some merged else none

/-- Failure modes of `_load_weights`: the explicit `RuntimeError` for a
configured but missing weight file, and the `assert len(checkpoints) == 1`
of checkpoint resumption. -/
inductive LoadErr where
  | missingCheckpoint : LoadErr
  | ambiguousResume : LoadErr
deriving DecidableEq

/-- `ISTrainer._load_weights` / `ISFintuner._load_weights` (lines 366-380 and
807-821, identical): if `cfg.weights` is set, the file must exist or a
`RuntimeError` is raised at once; otherwise if `cfg.resume_exp` is set, the
glob over the checkpoints directory (passed here as `checkpoints`) must
contain exactly one match or the assertion fails; otherwise the model is
returned untouched.  `loadFn` abstracts the `load_weights` call. -/
def loadWeightsDispatch {α : Type} (weights : Option String)
    (isFile : String → Bool) (resumeExp : Option String)
    (checkpoints : List String) (net : α) (loadFn : α → String → α) :
    Except LoadErr α :=
  match weights with
  | some w => if isFile w then .ok (loadFn net w) else .error .missingCheckpoint
  | none =>
    match resumeExp with
    | some _ =>
      match checkpoints with
      | [c] => .ok (loadFn net c)
      | _ => .error .ambiguousResume
    | none => .ok net

/-- A `Click` object as constructed by `prepare_seg_net_input`
(`Click(is_positive=…, coords=…, indx=100)`). -/
structure UClick where
  is_positive : Bool
  coords : ℚ × ℚ
  indx : ℕ
deriving DecidableEq

namespace ISFintuner

/-- The polarity marking of `prepare_seg_net_input` (lines 705-707): the
third coordinate of the first half of a sample's points is set to `999.0`,
of the second half to `-999.0`. -/
def markPolarity (pts : List Pt) : List Pt :=
  mapWithIdx
    (fun i p => (p.1, p.2.1, if i < pts.length / 2 then (999 : ℚ) else -999))
    0 pts

/-- The valid-point filter of `prepare_seg_net_input` (line 719):
`current_points[torch.where(current_points[:, 0] > 0)[0]]` keeps exactly the
rows whose row coordinate is strictly positive. -/
def validPoints (pts : List Pt) : List Pt :=
  pts.filter (fun p => decide (p.1 > 0))

/-- The clicks list built by `prepare_seg_net_input` (lines 718-725) for one
sample and handed to the zoom transform: polarity marking, the strict
`> 0` row filter, then `Click` construction with `indx=100` and positivity
read off the `999.0` marker. -/
def clicksListOf (pts : List Pt) : List UClick :=
  (validPoints (markPolarity pts)).map
    (fun p => ⟨decide (p.2.2 = 999), (p.1, p.2.1), 100⟩)

end ISFintuner

/-! ### List and grid helper lemmas -/

theorem mapWithIdx_length (f : ℕ → α → β) (i : ℕ) (l : List α) :
    (mapWithIdx f i l).length = l.length := by
  induction l generalizing i with
  | nil => rfl
  | cons a as ih => simp [mapWithIdx, ih]

theorem mapWithIdx_getElem? (f : ℕ → α → β) (i : ℕ) (l : List α) (n : ℕ) :
    (mapWithIdx f i l)[n]? = l[n]?.map (f (i + n)) := by
  induction l generalizing i n with
  | nil => simp [mapWithIdx]
  | cons a as ih =>
    cases n with
    | zero => simp [mapWithIdx]
    | succ m =>
      simp only [mapWithIdx, List.getElem?_cons_succ]
      rw [ih (i + 1) m, show i + 1 + m = i + (m + 1) from by omega]

theorem mem_mapWithIdx {f : ℕ → α → β} {i : ℕ} {l : List α} {x : β}
    (h : x ∈ mapWithIdx f i l) : ∃ j a, a ∈ l ∧ x = f j a := by
  induction l generalizing i with
  | nil => simp [mapWithIdx] at h
  | cons a as ih =>
    simp only [mapWithIdx, List.mem_cons] at h
    rcases h with h | h
    · exact ⟨i, a, List.mem_cons_self a as, h⟩
    · obtain ⟨j, b, hb, hx⟩ := ih h
      exact ⟨j, b, List.mem_cons_of_mem a hb, hx⟩

theorem zipWith_getElem?' (f : α → β → γ) (a : List α) (b : List β) (n : ℕ) :
    (List.zipWith f a b)[n]? = a[n]?.bind (fun x => b[n]?.map (f x)) := by
  induction a generalizing b n with
  | nil => simp
  | cons x xs ih =>
    cases b with
    | nil => simp
    | cons y ys =>
      cases n with
      | zero => simp
      | succ m => simpa using ih ys m

theorem getElem?_mem' {l : List α} {n : ℕ} {a : α} (h : l[n]? = some a) : a ∈ l := by
  induction l generalizing n with
  | nil => simp at h
  | cons x xs ih =>
    cases n with
    | zero => simp at h; simp [h]
    | succ m =>
      simp only [List.getElem?_cons_succ] at h
      exact List.mem_cons_of_mem x (ih h)

theorem set_getElem?_self' (l : List α) (i : ℕ) (v : α) (h : i < l.length) :
    (l.set i v)[i]? = some v := by
  induction l generalizing i with
  | nil => simp at h
  | cons x xs ih =>
    cases i with
    | zero => simp
    | succ m =>
      simp only [List.set_cons_succ, List.getElem?_cons_succ]
      exact ih m (by simpa using h)

theorem set_getElem?_ne' (l : List α) (i : ℕ) (v : α) (t : ℕ) (h : t ≠ i) :
    (l.set i v)[t]? = l[t]? := by
  induction l generalizing i t with
  | nil => simp
  | cons x xs ih =>
    cases i with
    | zero =>
      cases t with
      | zero => exact absurd rfl h
      | succ m => simp
    | succ m =>
      cases t with
      | zero => simp
      | succ s =>
        simp only [List.set_cons_succ, List.getElem?_cons_succ]
        exact ih m s (fun hc => h (by rw [hc]))

theorem ite_gt_max (a b : ℕ) : (if a > b then a else b) = max a b := by
  rcases le_or_lt a b with h | h
  · rw [if_neg (not_lt.mpr h), max_eq_right h]
  · rw [if_pos h, max_eq_left h.le]

/-! ### C1: the click-synthesis algorithm -/

theorem processSample_eq_spec (p g : Grid ℚ) (r : ℕ) :
    processSample (49 / 100) p g r = nextClickSpec p g r := by
  unfold processSample nextClickSpec
  simp only [ite_gt_max]

/-- C1: for every prediction map, ground-truth mask, point set and round
`click_indx ≥ 1`, `get_next_points` computes exactly the spec's algorithm —
binarize the ground truth at 0.5, false-negative / false-positive masks at
threshold 0.49, one-pixel zero padding, Euclidean distance transform, crop,
polarity of the mask with the larger maximum distance (positive when the
false-negative mask wins), inner region of pixels whose distance exceeds half
the winning maximum, uniform sample of one inner pixel as the new click. -/
theorem get_next_points_follows_spec_algorithm :
    (∀ (p g : Grid ℚ) (r : ℕ), processSample (49 / 100) p g r = nextClickSpec p g r) ∧
    ∀ (pred gt : List (Grid ℚ)) (points : List (List Pt)) (k : ℕ) (rng : ℕ → ℕ),
      1 ≤ k →
      get_next_points pred gt points k rng (49 / 100) =
        specGetNextPoints pred gt points k rng := by
  refine ⟨processSample_eq_spec, ?_⟩
  intro pred gt points k rng _
  unfold get_next_points specGetNextPoints
  simp only [processSample_eq_spec]

/-- Witness for C1 at a concrete one-sample batch. -/
theorem get_next_points_follows_spec_algorithm_witness :
    1 ≤ 1 ∧
    get_next_points [[[(0 : ℚ)]]] [[[(1 : ℚ)]]]
        [[((-1 : ℚ), (-1 : ℚ), (-1 : ℚ)), ((-1 : ℚ), (-1 : ℚ), (-1 : ℚ))]] 1
        (fun _ => 0) (49 / 100) =
      specGetNextPoints [[[(0 : ℚ)]]] [[[(1 : ℚ)]]]
        [[((-1 : ℚ), (-1 : ℚ), (-1 : ℚ)), ((-1 : ℚ), (-1 : ℚ), (-1 : ℚ))]] 1
        (fun _ => 0) :=
  ⟨le_refl 1,
   get_next_points_follows_spec_algorithm.2 _ _ _ 1 (fun _ => 0) (le_refl 1)⟩

/-! ### C2: the point-slot invariant -/

theorem writeClick_none (k : ℕ) (pts : List Pt) : writeClick k pts none = pts := rfl

theorem writeClick_pos (k : ℕ) (pts : List Pt) (i j : ℕ) :
    writeClick k pts (some (true, i, j)) =
      pts.set (pyIdx pts.length (((pts.length / 2 : ℕ) : ℤ) - (k : ℤ)))
        ((i : ℚ), (j : ℚ), (k : ℚ)) := rfl

theorem writeClick_neg (k : ℕ) (pts : List Pt) (i j : ℕ) :
    writeClick k pts (some (false, i, j)) =
      pts.set (pyIdx pts.length (2 * ((pts.length / 2 : ℕ) : ℤ) - (k : ℤ)))
        ((i : ℚ), (j : ℚ), (k : ℚ)) := rfl

theorem writeClick_length (k : ℕ) (pts : List Pt) (res : Option (Bool × ℕ × ℕ)) :
    (writeClick k pts res).length = pts.length := by
  rcases res with _ | ⟨isPos, i, j⟩
  · rfl
  · rcases isPos <;> simp [writeClick_pos, writeClick_neg, List.length_set]

theorem get_next_points_getElem? (pred gt : List (Grid ℚ)) (points : List (List Pt))
    (k : ℕ) (rng : ℕ → ℕ) (thresh : ℚ) (b : ℕ) :
    (get_next_points pred gt points k rng thresh)[b]? =
      points[b]?.map (fun sp =>
        match pred[b]?, gt[b]? with
        | some p, some g => writeClick k sp (processSample thresh p g (rng b))
        | _, _ => sp) := by
  unfold get_next_points
  rw [mapWithIdx_getElem?]
  simp

theorem pyIdx_pos_slot (L k : ℕ) (_hk1 : 1 ≤ k) (hkn : k ≤ L / 2) :
    pyIdx L (((L / 2 : ℕ) : ℤ) - (k : ℤ)) = L / 2 - k := by
  unfold pyIdx
  split <;> omega

theorem pyIdx_neg_slot (L k : ℕ) (hk1 : 1 ≤ k) (hkn : k ≤ L / 2) :
    pyIdx L (2 * ((L / 2 : ℕ) : ℤ) - (k : ℤ)) = 2 * (L / 2) - k := by
  unfold pyIdx
  split <;> omega

/-- C2: `get_next_points` keeps the point-set length, changes at most one
slot per sample, writes a positive click of round `click_indx` exactly to
slot `num_points - click_indx` and a negative one exactly to slot
`2 * num_points - click_indx` (with `num_points` half the per-sample point
count), and, for `1 ≤ click_indx ≤ num_points`, leaves every other slot —
in particular every slot of the other polarity and every slot written by an
earlier round of the same polarity — untouched. -/
theorem get_next_points_slot_invariant (pred gt : List (Grid ℚ))
    (points : List (List Pt)) (k : ℕ) (rng : ℕ → ℕ) (thresh : ℚ) (L : ℕ)
    (hL : ∀ s ∈ points, s.length = L) (hk1 : 1 ≤ k) (hkn : k ≤ L / 2) :
    (get_next_points pred gt points k rng thresh).length = points.length ∧
    ∀ b sb rb, points[b]? = some sb →
      (get_next_points pred gt points k rng thresh)[b]? = some rb →
      rb.length = sb.length ∧
      ((pred[b]? = none ∨ gt[b]? = none) → rb = sb) ∧
      ∀ pb gb, pred[b]? = some pb → gt[b]? = some gb →
        (processSample thresh pb gb (rng b) = none → rb = sb) ∧
        (∀ i j, processSample thresh pb gb (rng b) = some (true, i, j) →
          rb = sb.set (L / 2 - k) ((i : ℚ), (j : ℚ), (k : ℚ)) ∧
          rb[L / 2 - k]? = some ((i : ℚ), (j : ℚ), (k : ℚ)) ∧
          (∀ t, t ≠ L / 2 - k → rb[t]? = sb[t]?) ∧
          (∀ t, L / 2 ≤ t → rb[t]? = sb[t]?)) ∧
        (∀ i j, processSample thresh pb gb (rng b) = some (false, i, j) →
          rb = sb.set (2 * (L / 2) - k) ((i : ℚ), (j : ℚ), (k : ℚ)) ∧
          rb[2 * (L / 2) - k]? = some ((i : ℚ), (j : ℚ), (k : ℚ)) ∧
          (∀ t, t ≠ 2 * (L / 2) - k → rb[t]? = sb[t]?) ∧
          (∀ t, t < L / 2 → rb[t]? = sb[t]?)) := by
  constructor
  · unfold get_next_points; exact mapWithIdx_length _ _ _
  intro b sb rb hsb hrb
  have hsbL : sb.length = L := hL sb (getElem?_mem' hsb)
  rw [get_next_points_getElem? pred gt points k rng thresh b, hsb] at hrb
  simp only [Option.map_some', Option.some.injEq] at hrb
  rcases hp : pred[b]? with _ | pb
  · rw [hp] at hrb; dsimp only at hrb
    refine ⟨by rw [← hrb], fun _ => hrb.symm, ?_⟩
    intro pb' gb' hpb hgb
    simp at hpb
  rcases hg : gt[b]? with _ | gb
  · rw [hp, hg] at hrb; dsimp only at hrb
    refine ⟨by rw [← hrb], fun _ => hrb.symm, ?_⟩
    intro pb' gb' hpb hgb
    simp at hgb
  rw [hp, hg] at hrb; dsimp only at hrb
  refine ⟨by rw [← hrb, writeClick_length], ?_, ?_⟩
  · rintro (h | h)
    · simp at h
    · simp at h
  intro pb' gb' hpb hgb
  rw [Option.some.injEq] at hpb
  rw [Option.some.injEq] at hgb
  subst hpb; subst hgb
  refine ⟨?_, ?_, ?_⟩
  · intro hps; rw [hps, writeClick_none] at hrb; exact hrb.symm
  · intro i j hps
    rw [hps, writeClick_pos, hsbL, pyIdx_pos_slot L k hk1 hkn] at hrb
    have hrb' := hrb.symm
    have hlt : L / 2 - k < sb.length := by rw [hsbL]; omega
    refine ⟨hrb', ?_, ?_, ?_⟩
    · rw [hrb']; exact set_getElem?_self' sb (L / 2 - k) _ hlt
    · intro t ht; rw [hrb']; exact set_getElem?_ne' sb (L / 2 - k) _ t ht
    · intro t ht; rw [hrb']
      exact set_getElem?_ne' sb (L / 2 - k) _ t (by omega)
  · intro i j hps
    rw [hps, writeClick_neg, hsbL, pyIdx_neg_slot L k hk1 hkn] at hrb
    have hrb' := hrb.symm
    have hlt : 2 * (L / 2) - k < sb.length := by rw [hsbL]; omega
    refine ⟨hrb', ?_, ?_, ?_⟩
    · rw [hrb']; exact set_getElem?_self' sb (2 * (L / 2) - k) _ hlt
    · intro t ht; rw [hrb']; exact set_getElem?_ne' sb (2 * (L / 2) - k) _ t ht
    · intro t ht; rw [hrb']
      exact set_getElem?_ne' sb (2 * (L / 2) - k) _ t (by omega)

/-- Witness for C2 at a concrete one-sample batch with capacity one click
per polarity. -/
theorem get_next_points_slot_invariant_witness :
    (get_next_points [[[(0 : ℚ)]]] [[[(1 : ℚ)]]]
        [[((-1 : ℚ), (-1 : ℚ), (-1 : ℚ)), ((-1 : ℚ), (-1 : ℚ), (-1 : ℚ))]] 1
        (fun _ => 0) (49 / 100)).length = 1 := by
  have h := (get_next_points_slot_invariant [[[(0 : ℚ)]]] [[[(1 : ℚ)]]]
      [[((-1 : ℚ), (-1 : ℚ), (-1 : ℚ)), ((-1 : ℚ), (-1 : ℚ), (-1 : ℚ))]] 1
      (fun _ => 0) (49 / 100) 2
      (by intro s hs; rw [List.mem_singleton] at hs; subst hs; rfl)
      (le_refl 1) (by norm_num)).1
  simpa using h

/-! ### C3: samples with no error region are left untouched -/

theorem pad_allFalse {m : Grid Bool} (h : ∀ row ∈ m, ∀ b ∈ row, b = false) :
    ∀ row ∈ pad m, ∀ b ∈ row, b = false := by
  intro row hrow b hb
  unfold pad at hrow
  simp only [List.append_assoc, List.mem_append, List.mem_singleton, List.mem_map] at hrow
  rcases hrow with hrow | ⟨r, hr, rfl⟩ | hrow
  · subst hrow; exact List.eq_of_mem_replicate hb
  · rcases List.mem_cons.mp hb with rfl | hb'
    · rfl
    · rcases List.mem_append.mp hb' with hb'' | hb''
      · exact h r hr b hb''
      · exact List.eq_of_mem_singleton hb''
  · subst hrow; exact List.eq_of_mem_replicate hb

theorem edtSq_allZero {m : Grid Bool} (h : ∀ row ∈ m, ∀ b ∈ row, b = false) :
    ∀ row ∈ edtSq m, ∀ d ∈ row, d = 0 := by
  intro row hrow d hd
  unfold edtSq gridMapIdx at hrow
  obtain ⟨i, r, hr, rfl⟩ := mem_mapWithIdx hrow
  obtain ⟨j, b, hb, rfl⟩ := mem_mapWithIdx hd
  rw [h r hr b hb]
  rfl

theorem crop_allZero {g : Grid ℕ} (h : ∀ row ∈ g, ∀ d ∈ row, d = 0) :
    ∀ row ∈ crop g, ∀ d ∈ row, d = 0 := by
  intro row hrow d hd
  unfold crop at hrow
  obtain ⟨r, hr, rfl⟩ := List.mem_map.mp hrow
  have hr' : r ∈ g := List.drop_subset 1 g (List.dropLast_subset _ hr)
  have hd' : d ∈ r := List.drop_subset 1 r (List.dropLast_subset _ hd)
  exact h r hr' d hd'

theorem trueCols_nil (row : List Bool) (h : ∀ b ∈ row, b = false) (j : ℕ) :
    trueCols j row = [] := by
  induction row generalizing j with
  | nil => rfl
  | cons b bs ih =>
    have hb : b = false := h b (List.mem_cons_self _ _)
    subst hb
    simp only [trueCols, Bool.false_eq_true, if_false]
    exact ih (fun x hx => h x (List.mem_cons_of_mem _ hx)) (j + 1)

theorem argwhereAux_nil (g : Grid Bool) (h : ∀ row ∈ g, ∀ b ∈ row, b = false)
    (i : ℕ) : argwhereAux i g = [] := by
  induction g generalizing i with
  | nil => rfl
  | cons r rs ih =>
    simp only [argwhereAux]
    rw [trueCols_nil r (h r (List.mem_cons_self _ _)) 0]
    simp only [List.map_nil, List.nil_append]
    exact ih (fun x hx => h x (List.mem_cons_of_mem _ hx)) (i + 1)

theorem argwhere_nil (g : Grid Bool) (h : ∀ row ∈ g, ∀ b ∈ row, b = false) :
    argwhere g = [] :=
  argwhereAux_nil g h 0

theorem processSample_none_of_no_error (thresh : ℚ) (p g : Grid ℚ) (r : ℕ)
    (hfn : ∀ row ∈ fnMask thresh p g, ∀ v ∈ row, v = false)
    (hfp : ∀ row ∈ fpMask thresh p g, ∀ v ∈ row, v = false) :
    processSample thresh p g r = none := by
  simp only [processSample]
  rw [argwhere_nil]
  · rfl
  · intro row hrow v hv
    unfold gridMap at hrow
    obtain ⟨r0, hr0, rfl⟩ := List.mem_map.mp hrow
    obtain ⟨d, hd, rfl⟩ := List.mem_map.mp hv
    have hd0 : d = 0 := by
      revert hd; revert hr0
      split
      · intro hr0 hd
        exact crop_allZero (edtSq_allZero (pad_allFalse hfn)) r0 hr0 d hd
      · intro hr0 hd
        exact crop_allZero (edtSq_allZero (pad_allFalse hfp)) r0 hr0 d hd
    subst hd0
    simp

/-- C3: a sample whose prediction already matches the binarized ground truth
(no false-negative and no false-positive pixel) is left completely untouched
by `get_next_points` — in particular a sentinel `(-1, -1, -1)` slot stays the
sentinel — while every other sample of the batch is still processed from its
own data alone (no partial-failure propagation). -/
theorem get_next_points_perfect_match (pred gt : List (Grid ℚ))
    (points : List (List Pt)) (k : ℕ) (rng : ℕ → ℕ) (thresh : ℚ) (b : ℕ)
    (pb gb : Grid ℚ) (hp : pred[b]? = some pb) (hg : gt[b]? = some gb)
    (hfn : ∀ row ∈ fnMask thresh pb gb, ∀ v ∈ row, v = false)
    (hfp : ∀ row ∈ fpMask thresh pb gb, ∀ v ∈ row, v = false) :
    (get_next_points pred gt points k rng thresh)[b]? = points[b]? ∧
    (∀ (sb : List Pt) (s : ℕ), points[b]? = some sb →
      sb[s]? = some ((-1 : ℚ), (-1 : ℚ), (-1 : ℚ)) →
      ∃ rb, (get_next_points pred gt points k rng thresh)[b]? = some rb ∧
        rb[s]? = some ((-1 : ℚ), (-1 : ℚ), (-1 : ℚ))) ∧
    ∀ b' pb' gb', pred[b']? = some pb' → gt[b']? = some gb' →
      (get_next_points pred gt points k rng thresh)[b']? =
        points[b']?.map
          (fun sp => writeClick k sp (processSample thresh pb' gb' (rng b'))) := by
  have hnone := processSample_none_of_no_error thresh pb gb (rng b) hfn hfp
  have h1 : (get_next_points pred gt points k rng thresh)[b]? = points[b]? := by
    rw [get_next_points_getElem?]
    simp only [hp, hg, hnone, writeClick_none]
    cases points[b]? <;> rfl
  refine ⟨h1, ?_, ?_⟩
  · intro sb s hsb hsl
    exact ⟨sb, by rw [h1, hsb], hsl⟩
  · intro b' pb' gb' hp' hg'
    rw [get_next_points_getElem?]
    simp only [hp', hg']

/-- Witness for C3: a prediction of all ones on a ground truth of all ones
leaves the single sentinel slot untouched. -/
theorem get_next_points_perfect_match_witness :
    (get_next_points [[[(1 : ℚ)]]] [[[(1 : ℚ)]]]
        [[((-1 : ℚ), (-1 : ℚ), (-1 : ℚ))]] 1 (fun _ => 0) (49 / 100))[0]? =
      some [((-1 : ℚ), (-1 : ℚ), (-1 : ℚ))] := by
  have hfnv : fnMask (49 / 100) [[(1 : ℚ)]] [[(1 : ℚ)]] = [[false]] := by
    simp [fnMask, gridZip, gtBin, gridMap]
    norm_num
  have hfpv : fpMask (49 / 100) [[(1 : ℚ)]] [[(1 : ℚ)]] = [[false]] := by
    simp [fpMask, gridZip, gtBin, gridMap]
    norm_num
  have h := (get_next_points_perfect_match [[[(1 : ℚ)]]] [[[(1 : ℚ)]]]
      [[((-1 : ℚ), (-1 : ℚ), (-1 : ℚ))]] 1 (fun _ => 0) (49 / 100) 0
      [[(1 : ℚ)]] [[(1 : ℚ)]] rfl rfl (by rw [hfnv]; decide)
      (by rw [hfpv]; decide)).1
  rw [h]
  rfl

/-! ### C4: the simulated-round count -/

/-- C4: `num_iters` is drawn by `random.randint(0, max_num_next_clicks)` once
per batch in both trainer variants: it never exceeds the configured ceiling,
it is uniform over the inclusive range `[0, max_num_next_clicks]` (each value
has exactly one seed preimage per period of the draw), and with
`max_num_next_clicks = 0` the simulation loop body runs zero times, leaving
only the final gradient-tracked pass. -/
theorem batch_forward_num_iters_bounded :
    (∀ r m, ISTrainer.numIters r m ≤ m ∧ ISFintuner.numIters r m ≤ m) ∧
    (∀ m v, v ≤ m →
      Finset.filter (fun r => ISTrainer.numIters r m = v) (Finset.range (m + 1)) = {v} ∧
      Finset.filter (fun r => ISFintuner.numIters r m = v) (Finset.range (m + 1)) = {v}) ∧
    ∀ (σ τ : Type) (step : σ → σ) (finalPass : σ → τ) (r : ℕ) (s0 : σ),
      ISTrainer.numIters r 0 = 0 ∧ ISFintuner.numIters r 0 = 0 ∧
      ISTrainer.batchForwardSim step finalPass r 0 s0 = finalPass s0 ∧
      ISFintuner.batchForwardSim step finalPass r 0 s0 = finalPass s0 := by
  have hb : ∀ r m : ℕ, randint r m ≤ m := fun r m =>
    Nat.lt_succ_iff.mp (Nat.mod_lt r (Nat.succ_pos m))
  have hu : ∀ m v : ℕ, v ≤ m →
      Finset.filter (fun r => randint r m = v) (Finset.range (m + 1)) = {v} := by
    intro m v hv
    ext x
    simp only [Finset.mem_filter, Finset.mem_range, Finset.mem_singleton, randint]
    constructor
    · rintro ⟨hx, hxe⟩
      rw [Nat.mod_eq_of_lt hx] at hxe
      exact hxe
    · rintro rfl
      exact ⟨Nat.lt_succ_of_le hv, Nat.mod_eq_of_lt (Nat.lt_succ_of_le hv)⟩
  have hz : ∀ r : ℕ, randint r 0 = 0 := fun r => Nat.mod_one r
  refine ⟨fun r m => ⟨hb r m, hb r m⟩, fun m v hv => ⟨hu m v hv, hu m v hv⟩, ?_⟩
  intro σ τ step finalPass r s0
  refine ⟨hz r, hz r, ?_, ?_⟩ <;>
    simp [ISTrainer.batchForwardSim, ISFintuner.batchForwardSim,
      ISTrainer.numIters, ISFintuner.numIters, hz r]

/-- Witness for C4 at concrete seeds and ceilings. -/
theorem batch_forward_num_iters_bounded_witness :
    ISTrainer.numIters 7 3 ≤ 3 ∧
    Finset.filter (fun r => ISTrainer.numIters r 3 = 2) (Finset.range 4) = {2} ∧
    ISTrainer.batchForwardSim (fun n : ℕ => n + 1) (fun n : ℕ => n) 7 0 5 = 5 :=
  ⟨(batch_forward_num_iters_bounded.1 7 3).1,
   (batch_forward_num_iters_bounded.2.1 3 2 (by norm_num)).1,
   (batch_forward_num_iters_bounded.2.2 ℕ ℕ (fun n => n + 1) (fun n => n) 7 5).2.2.1⟩

/-! ### C5 and C6: loss weighting, composition and the missing-criterion error -/

theorem ISTrainer_add_loss_skip {ι : Type} (cfg : LossCfg ι) (name : String)
    (total : ℚ) (logging : List (String × ℚ)) (inputs : Unit → ι)
    (pw : Option (List ℚ)) (h : (cfg.weightOf name).getD 0 ≤ 0) :
    ISTrainer.add_loss cfg name total logging inputs pw = some (total, logging) := by
  simp only [ISTrainer.add_loss]
  rw [if_neg (not_lt.mpr h)]

theorem foldlM_skip {ι : Type} (cfg : LossCfg ι) :
    ∀ (terms : List (String × (Unit → ι))) (acc : ℚ × List (String × ℚ)),
      (∀ t ∈ terms, (cfg.weightOf t.1).getD 0 ≤ 0) →
      terms.foldlM (fun acc t => ISTrainer.add_loss cfg t.1 acc.1 acc.2 t.2 none) acc =
        some acc := by
  intro terms
  induction terms with
  | nil => intro acc _; rfl
  | cons t ts ih =>
    intro acc h
    obtain ⟨a1, a2⟩ := acc
    rw [List.foldlM_cons,
      ISTrainer_add_loss_skip cfg t.1 a1 a2 t.2 none (h t (List.mem_cons_self _ _))]
    exact ih (a1, a2) (fun x hx => h x (List.mem_cons_of_mem _ hx))

/-- C5: a loss term whose configured weight is absent or not positive leaves
the running total untouched and records nothing, in both trainer variants;
and when exactly one term of the composed chain has a positive weight, the
total loss is exactly that weight times the mean of its criterion's output,
while the logged value is the unweighted mean. -/
theorem add_loss_weight_gate_and_composition :
    (∀ (ι : Type) (cfg : LossCfg ι) (name : String) (total : ℚ)
        (logging : List (String × ℚ)) (inputs : Unit → ι) (pw : Option (List ℚ)),
      (cfg.weightOf name).getD 0 ≤ 0 →
      ISTrainer.add_loss cfg name total logging inputs pw = some (total, logging)) ∧
    (∀ (ι : Type) (cfg : LossCfg ι) (name : String) (total : ℚ)
        (logging : List (String × ℚ)) (inputs : Unit → ι),
      (cfg.weightOf name).getD 0 ≤ 0 →
      ISFintuner.add_loss cfg name total logging inputs = some (total, logging)) ∧
    ∀ (ι : Type) (cfg : LossCfg ι) (pre post : List (String × (Unit → ι)))
      (name : String) (inp : Unit → ι) (crit : ι → List ℚ),
      (∀ t ∈ pre, (cfg.weightOf t.1).getD 0 ≤ 0) →
      (∀ t ∈ post, (cfg.weightOf t.1).getD 0 ≤ 0) →
      0 < (cfg.weightOf name).getD 0 →
      cfg.critOf name = some crit →
      ISTrainer.composeLosses cfg (pre ++ (name, inp) :: post) =
        some ((cfg.weightOf name).getD 0 * mean (crit (inp ())),
              [(name, mean (crit (inp ())))]) := by
  refine ⟨fun ι cfg name total logging inputs pw h =>
      ISTrainer_add_loss_skip cfg name total logging inputs pw h, ?_, ?_⟩
  · intro ι cfg name total logging inputs h
    simp only [ISFintuner.add_loss]
    rw [if_neg (not_lt.mpr h)]
  intro ι cfg pre post name inp crit hpre hpost hw hc
  unfold ISTrainer.composeLosses
  rw [List.foldlM_append, foldlM_skip cfg pre (0, []) hpre]
  show (ISTrainer.add_loss cfg name 0 [] inp none >>= fun b' =>
      post.foldlM (fun acc t => ISTrainer.add_loss cfg t.1 acc.1 acc.2 t.2 none) b') = _
  have hstep : ISTrainer.add_loss cfg name 0 [] inp none =
      some ((cfg.weightOf name).getD 0 * mean (crit (inp ())),
            [(name, mean (crit (inp ())))]) := by
    simp only [ISTrainer.add_loss]
    rw [if_pos hw, hc]
    simp
  rw [hstep]
  exact foldlM_skip cfg post _ hpost

/-- Witness for C5: one positive-weight term among a zero-weight term. -/
theorem add_loss_weight_gate_and_composition_witness :
    ISTrainer.composeLosses
      (⟨fun n => if n = "instance_loss" then some 2 else none,
        fun n => if n = "instance_loss" then some (fun x => x) else none⟩ :
        LossCfg (List ℚ))
      [("zoom_in_loss", fun _ => [(5 : ℚ)]), ("instance_loss", fun _ => [(1 : ℚ), 3])] =
      some (2 * mean [(1 : ℚ), 3], [("instance_loss", mean [(1 : ℚ), 3])]) := by
  have h := add_loss_weight_gate_and_composition.2.2 (List ℚ)
      ⟨fun n => if n = "instance_loss" then some 2 else none,
       fun n => if n = "instance_loss" then some (fun x => x) else none⟩
      [("zoom_in_loss", fun _ => [(5 : ℚ)])] [] "instance_loss"
      (fun _ => [(1 : ℚ), 3]) (fun x => x)
      (by intro t ht; rw [List.mem_singleton] at ht; subst ht; decide)
      (by intro t ht; simp at ht)
      (by decide) rfl
  simpa using h

/-- C6: `add_loss` fails exactly when the looked-up weight is positive while
no criterion is registered under the term's name; with a nonpositive weight
the criterion lookup is skipped and no failure can occur, in both trainer
variants. -/
theorem add_loss_raises_iff_missing_criterion :
    ∀ (ι : Type) (cfg : LossCfg ι) (name : String) (total : ℚ)
      (logging : List (String × ℚ)) (inputs : Unit → ι) (pw : Option (List ℚ)),
      (ISTrainer.add_loss cfg name total logging inputs pw = none ↔
        0 < (cfg.weightOf name).getD 0 ∧ cfg.critOf name = none) ∧
      (ISFintuner.add_loss cfg name total logging inputs = none ↔
        0 < (cfg.weightOf name).getD 0 ∧ cfg.critOf name = none) := by
  intro ι cfg name total logging inputs pw
  constructor
  · simp only [ISTrainer.add_loss]
    split
    · rename_i hw
      cases hcrit : cfg.critOf name with
      | none => simp [hcrit, hw]
      | some crit => simp [hcrit]
    · rename_i hw
      simp [hw]
  · simp only [ISFintuner.add_loss]
    split
    · rename_i hw
      cases hcrit : cfg.critOf name with
      | none => simp [hcrit, hw]
      | some crit => simp [hcrit]
    · rename_i hw
      simp [hw]

/-! ### C7: ignored pixels never count as foreground -/

theorem map_getElem?' (f : α → β) (l : List α) (n : ℕ) :
    (l.map f)[n]? = l[n]?.map f := by
  induction l generalizing n with
  | nil => simp
  | cons x xs ih =>
    cases n with
    | zero => simp
    | succ m => simp [ih m]

theorem gridCell?_gridMap (f : α → β) (g : Grid α) (i j : ℕ) :
    gridCell? (gridMap f g) i j = (gridCell? g i j).map f := by
  unfold gridCell? gridMap
  rw [map_getElem?']
  cases g[i]? with
  | none => rfl
  | some row => simp [map_getElem?']

theorem gridCell?_gridZip (f : α → β → γ) (a : Grid α) (b : Grid β) (i j : ℕ) :
    gridCell? (gridZip f a b) i j =
      (gridCell? a i j).bind (fun x => (gridCell? b i j).map (f x)) := by
  unfold gridCell? gridZip
  rw [zipWith_getElem?']
  cases a[i]? with
  | none => rfl
  | some ra =>
    cases b[i]? with
    | none => cases hra : ra[j]? <;> simp [hra]
    | some rb => simp [zipWith_getElem?']

/-- C7: a ground-truth pixel holding the ignore value `-1` is binarized to
background by the `gt > 0.5` threshold, so it can never belong to the
false-negative mask, whatever the prediction and the threshold. -/
theorem ignored_pixels_never_false_negative (thresh : ℚ) (pred gt : Grid ℚ)
    (i j : ℕ) (h : gridCell? gt i j = some (-1)) :
    gridCell? (fnMask thresh pred gt) i j ≠ some true := by
  intro hc
  unfold fnMask at hc
  rw [gridCell?_gridZip] at hc
  have hg : gridCell? (gtBin gt) i j = some false := by
    unfold gtBin
    rw [gridCell?_gridMap, h]
    simp only [Option.map_some', Option.some.injEq, decide_eq_false_iff_not]
    norm_num
  rw [hg] at hc
  cases hp : gridCell? pred i j with
  | none => rw [hp] at hc; cases hc
  | some p => rw [hp] at hc; simp at hc

/-- Witness for C7 at a single ignored pixel. -/
theorem ignored_pixels_never_false_negative_witness :
    gridCell? [[(-1 : ℚ)]] 0 0 = some (-1) ∧
    gridCell? (fnMask (49 / 100) [[(0 : ℚ)]] [[(-1 : ℚ)]]) 0 0 ≠ some true :=
  ⟨rfl, ignored_pixels_never_false_negative (49 / 100) [[(0 : ℚ)]] [[(-1 : ℚ)]] 0 0 rfl⟩

/-! ### C8: checkpoint merge semantics -/

theorem lookup_setKey_self (d : StateDict) (k : String) (v : Tensor) :
    (setKey d k v).lookup k = some v := by
  induction d with
  | nil => simp [setKey, List.lookup]
  | cons kv rest ih =>
    obtain ⟨k0, v0⟩ := kv
    by_cases h : k0 = k
    · subst h; simp [setKey, List.lookup]
    · simp only [setKey, if_neg h, List.lookup]
      rw [show (k == k0) = false by simpa using Ne.symm h]
      exact ih

theorem lookup_setKey_ne (d : StateDict) (k : String) (v : Tensor) (k' : String)
    (h : k' ≠ k) : (setKey d k v).lookup k' = d.lookup k' := by
  induction d with
  | nil =>
    simp only [setKey, List.lookup]
    rw [show (k' == k) = false by simpa using h]
  | cons kv rest ih =>
    obtain ⟨k0, v0⟩ := kv
    by_cases hk : k0 = k
    · subst hk
      simp only [setKey, if_pos rfl, List.lookup]
      rw [show (k' == k0) = false by simpa using h]
    · simp only [setKey, if_neg hk, List.lookup]
      cases hkb : k' == k0
      · exact ih
      · rfl

theorem dictUpdate_lookup_not_mem (k : String) :
    ∀ (new cur : StateDict), k ∉ new.map Prod.fst →
      (dictUpdate cur new).lookup k = cur.lookup k := by
  intro new
  induction new with
  | nil => intro cur _; rfl
  | cons kv rest ih =>
    intro cur h
    obtain ⟨k0, v0⟩ := kv
    simp only [List.map_cons, List.mem_cons, not_or] at h
    show (dictUpdate (setKey cur k0 v0) rest).lookup k = cur.lookup k
    rw [ih (setKey cur k0 v0) h.2, lookup_setKey_ne _ _ _ _ h.1]

theorem dictUpdate_lookup_some (k : String) (v : Tensor) :
    ∀ (new cur : StateDict), (new.map Prod.fst).Nodup →
      new.lookup k = some v → (dictUpdate cur new).lookup k = some v := by
  intro new
  induction new with
  | nil => intro cur _ h; cases h
  | cons kv rest ih =>
    intro cur hnd h
    obtain ⟨k0, v0⟩ := kv
    simp only [List.map_cons, List.nodup_cons] at hnd
    show (dictUpdate (setKey cur k0 v0) rest).lookup k = some v
    by_cases hk : k = k0
    · subst hk
      have hv : v0 = v := by
        simpa [List.lookup] using h
      subst hv
      rw [dictUpdate_lookup_not_mem k rest _ hnd.1, lookup_setKey_self]
    · have h' : rest.lookup k = some v := by
        simpa [List.lookup, show (k == k0) = false by simpa using hk] using h
      exact ih (setKey cur k0 v0) hnd.2 h'

theorem dictUpdate_lookup_none (k : String) :
    ∀ (new cur : StateDict), new.lookup k = none →
      (dictUpdate cur new).lookup k = cur.lookup k := by
  intro new
  induction new with
  | nil => intro cur _; rfl
  | cons kv rest ih =>
    intro cur h
    obtain ⟨k0, v0⟩ := kv
    by_cases hk : k = k0
    · subst hk; simp [List.lookup] at h
    · have h' : rest.lookup k = none := by
        simpa [List.lookup, show (k == k0) = false by simpa using hk] using h
      show (dictUpdate (setKey cur k0 v0) rest).lookup k = cur.lookup k
      rw [ih (setKey cur k0 v0) h', lookup_setKey_ne _ _ _ _ hk]

theorem lookup_mem : ∀ {d : StateDict} {k : String} {v : Tensor},
    d.lookup k = some v → (k, v) ∈ d := by
  intro d
  induction d with
  | nil => intro k v h; cases h
  | cons kv rest ih =>
    intro k v h
    obtain ⟨k0, v0⟩ := kv
    by_cases hk : k = k0
    · subst hk
      have hv : v0 = v := by simpa [List.lookup] using h
      subst hv
      exact List.mem_cons_self _ _
    · have h' : rest.lookup k = some v := by
        simpa [List.lookup, show (k == k0) = false by simpa using hk] using h
      exact List.mem_cons_of_mem _ (ih h')

/-- C8: `load_weights` merges the checkpoint into the live state dict by key
— checkpoint keys replace live entries, live keys absent from the checkpoint
are silently kept — and the subsequent strict `load_state_dict` fails
whenever an updated key's tensor shape does not match the model's. -/
theorem load_weights_partial_merge (model ckpt : StateDict)
    (hnd : (ckpt.map Prod.fst).Nodup) :
    (∀ k v, ckpt.lookup k = some v → (dictUpdate model ckpt).lookup k = some v) ∧
    (∀ k, ckpt.lookup k = none → (dictUpdate model ckpt).lookup k = model.lookup k) ∧
    (∀ sd, load_weights model ckpt = some sd →
      sd = dictUpdate model ckpt ∧
      ∀ k v, ckpt.lookup k = some v →
        ∃ mv, model.lookup k = some mv ∧ v.shape = mv.shape) ∧
    ∀ k v, ckpt.lookup k = some v →
      (∀ mv, model.lookup k = some mv → v.shape ≠ mv.shape) →
      load_weights model ckpt = none := by
  have h1 : ∀ k v, ckpt.lookup k = some v →
      (dictUpdate model ckpt).lookup k = some v :=
    fun k v h => dictUpdate_lookup_some k v ckpt model hnd h
  have h2 : ∀ k, ckpt.lookup k = none →
      (dictUpdate model ckpt).lookup k = model.lookup k :=
    fun k h => dictUpdate_lookup_none k ckpt model h
  have h3 : ∀ sd, load_weights model ckpt = some sd →
      sd = dictUpdate model ckpt ∧
      ∀ k v, ckpt.lookup k = some v →
        ∃ mv, model.lookup k = some mv ∧ v.shape = mv.shape := by
    intro sd hsd
    unfold load_weights at hsd
    by_cases hm : shapesMatch model (dictUpdate model ckpt) = true
    · rw [if_pos hm] at hsd
      cases hsd
      refine ⟨rfl, ?_⟩
      intro k v hk
      have hmem : (k, v) ∈ dictUpdate model ckpt := lookup_mem (h1 k v hk)
      unfold shapesMatch at hm
      rw [Bool.and_eq_true] at hm
      have hall := (List.all_eq_true.mp hm.1) (k, v) hmem
      dsimp only at hall
      cases hml : model.lookup k with
      | none => rw [hml] at hall; cases hall
      | some mv =>
        rw [hml] at hall
        exact ⟨mv, rfl, by simpa using hall⟩
    · rw [if_neg hm] at hsd; cases hsd
  refine ⟨h1, h2, h3, ?_⟩
  intro k v hk hmis
  cases hlw : load_weights model ckpt with
  | none => rfl
  | some sd =>
    obtain ⟨-, hsh⟩ := h3 sd hlw
    obtain ⟨mv, hml, hshape⟩ := hsh k v hk
    exact absurd hshape (hmis mv hml)

/-- Witness for C8 on a two-parameter model and a one-key checkpoint. -/
theorem load_weights_partial_merge_witness :
    (dictUpdate [("a", ⟨[2], [1, 2]⟩), ("b", ⟨[1], [0]⟩)]
        [("a", ⟨[2], [5, 6]⟩)]).lookup "a" = some ⟨[2], [5, 6]⟩ ∧
    (dictUpdate [("a", ⟨[2], [1, 2]⟩), ("b", ⟨[1], [0]⟩)]
        [("a", ⟨[2], [5, 6]⟩)]).lookup "b" =
      ([("a", ⟨[2], [1, 2]⟩), ("b", ⟨[1], [0]⟩)] : StateDict).lookup "b" :=
  ⟨(load_weights_partial_merge [("a", ⟨[2], [1, 2]⟩), ("b", ⟨[1], [0]⟩)]
      [("a", ⟨[2], [5, 6]⟩)] (by simp)).1 "a" ⟨[2], [5, 6]⟩ rfl,
   (load_weights_partial_merge [("a", ⟨[2], [1, 2]⟩), ("b", ⟨[1], [0]⟩)]
      [("a", ⟨[2], [5, 6]⟩)] (by simp)).2.1 "b" rfl⟩

/-! ### C9: fail-fast checkpoint resolution -/

/-- C9: `_load_weights` fails in exactly two ways — a configured weights path
naming no existing file raises immediately, with no fallback to resumption,
and resuming with anything but exactly one matching checkpoint file trips the
assertion — and otherwise returns the model, loaded or untouched. -/
theorem load_weights_dispatch_fail_fast :
    ∀ (α : Type) (net : α) (loadFn : α → String → α) (isFile : String → Bool)
      (resumeExp : Option String) (checkpoints : List String),
      (∀ w, isFile w = false →
        loadWeightsDispatch (some w) isFile resumeExp checkpoints net loadFn =
          .error .missingCheckpoint) ∧
      (∀ w, isFile w = true →
        loadWeightsDispatch (some w) isFile resumeExp checkpoints net loadFn =
          .ok (loadFn net w)) ∧
      (∀ e, resumeExp = some e →
        (checkpoints.length ≠ 1 →
          loadWeightsDispatch none isFile resumeExp checkpoints net loadFn =
            .error .ambiguousResume) ∧
        ∀ c, checkpoints = [c] →
          loadWeightsDispatch none isFile resumeExp checkpoints net loadFn =
            .ok (loadFn net c)) ∧
      (resumeExp = none →
        loadWeightsDispatch none isFile resumeExp checkpoints net loadFn = .ok net) := by
  intro α net loadFn isFile resumeExp checkpoints
  refine ⟨?_, ?_, ?_, ?_⟩
  · intro w hw; simp [loadWeightsDispatch, hw]
  · intro w hw; simp [loadWeightsDispatch, hw]
  · intro e he
    subst he
    constructor
    · intro hlen
      rcases checkpoints with _ | ⟨c, _ | ⟨c2, cs⟩⟩
      · rfl
      · simp at hlen
      · rfl
    · rintro c rfl; rfl
  · rintro rfl; rfl

/-- Witness for C9: a missing weight file and a resume with zero matches. -/
theorem load_weights_dispatch_fail_fast_witness :
    loadWeightsDispatch (some "model.pth") (fun _ => false) none [] (0 : ℕ)
      (fun n _ => n) = .error .missingCheckpoint ∧
    loadWeightsDispatch none (fun _ => false) (some "exp") ([] : List String) (0 : ℕ)
      (fun n _ => n) = .error .ambiguousResume :=
  ⟨(load_weights_dispatch_fail_fast ℕ 0 (fun n _ => n) (fun _ => false)
      none []).1 "model.pth" rfl,
   ((load_weights_dispatch_fail_fast ℕ 0 (fun n _ => n) (fun _ => false)
      (some "exp") []).2.2.1 "exp" rfl).1 (by simp)⟩

/-! ### C10: the strict row filter of the dual-network clicks list -/

theorem filter_mapWithIdx_fst (h : ℕ) :
    ∀ (l : List Pt) (i : ℕ),
      ((mapWithIdx (fun i p => ((p.1 : ℚ), p.2.1,
          if i < h then (999 : ℚ) else -999)) i l).filter
        (fun p => decide (p.1 > 0))).length =
      (l.filter (fun p => decide (p.1 > 0))).length := by
  intro l
  induction l with
  | nil => intro i; rfl
  | cons p ps ih =>
    intro i
    simp only [mapWithIdx, List.filter_cons]
    by_cases hp : p.1 > 0 <;> simp [hp, ih (i + 1)]

/-- C10: the dual-network path forwards a stored point to the zoom transform
only when its row coordinate is strictly positive — every click in the
constructed clicks list has row > 0, the list size equals the number of rows
with strictly positive row coordinate, and a point set whose rows all have
nonpositive row coordinate (a non-sentinel click at row 0 included) yields an
empty clicks list. -/
theorem seg_net_input_click_filter (pts : List Pt) :
    (∀ c ∈ ISFintuner.clicksListOf pts, c.coords.1 > 0) ∧
    (ISFintuner.clicksListOf pts).length =
      (pts.filter (fun p => decide (p.1 > 0))).length ∧
    ((∀ p ∈ pts, p.1 ≤ 0) → ISFintuner.clicksListOf pts = []) := by
  refine ⟨?_, ?_, ?_⟩
  · intro c hc
    unfold ISFintuner.clicksListOf at hc
    obtain ⟨p, hp, rfl⟩ := List.mem_map.mp hc
    unfold ISFintuner.validPoints at hp
    have hdec := List.of_mem_filter hp
    simpa using hdec
  · unfold ISFintuner.clicksListOf
    rw [List.length_map]
    unfold ISFintuner.validPoints ISFintuner.markPolarity
    exact filter_mapWithIdx_fst (pts.length / 2) pts 0
  · intro hle
    unfold ISFintuner.clicksListOf ISFintuner.validPoints
    have hnil : (ISFintuner.markPolarity pts).filter (fun p => decide (p.1 > 0)) = [] := by
      rw [List.filter_eq_nil_iff]
      intro p hp
      unfold ISFintuner.markPolarity at hp
      obtain ⟨i, q, hq, rfl⟩ := mem_mapWithIdx hp
      simpa using not_lt.mpr (hle q hq)
    rw [hnil]
    rfl

/-- Witness for C10: a non-sentinel click at row 0 is dropped, and only
strictly-positive rows are counted. -/
theorem seg_net_input_click_filter_witness :
    ISFintuner.clicksListOf [((0 : ℚ), 5, 3), ((-1 : ℚ), -1, -1)] = [] ∧
    (ISFintuner.clicksListOf [((2 : ℚ), 4, -1), ((0 : ℚ), 9, 9)]).length =
      ([((2 : ℚ), 4, -1), ((0 : ℚ), 9, 9)].filter
        (fun p : Pt => decide (p.1 > 0))).length :=
  ⟨(seg_net_input_click_filter [((0 : ℚ), 5, 3), ((-1 : ℚ), -1, -1)]).2.2 (by decide),
   (seg_net_input_click_filter [((2 : ℚ), 4, -1), ((0 : ℚ), 9, 9)]).2.1⟩

end CSFPN
